import Mathlib

/-!
Verification of the Upstage document-parse client
(src/tools/upstage_client.py and src/upstage_parser/parser.py).

Modelling conventions: Python dictionaries are insertion-ordered
association lists, Python integers are Int, a JSON key read with
dict.get is an Option (absent key = none), and a key read with
dict[...] is a required structure field.  Wall-clock readings are
supplied as explicit Int values; the sequence of poll responses of a
waiting loop is supplied as an explicit list of (clock reading,
parsed response) pairs consumed in order, a pair per loop iteration.
-/

/-- BatchResult dataclass of upstage_client.py (lines 13-21): one batch of a
parse job, with its service id, status string, optional download URL and
optional inclusive page range. -/
structure BatchResult where
  id : Int
  status : String
  download_url : Option String := none
  start_page : Option Int := none
  end_page : Option Int := none
deriving DecidableEq

/-- Grouping key of the duplicate filter in check_status (line 416):
the pair (batch.start_page, batch.end_page). -/
def batchKey (b : BatchResult) : Option Int × Option Int :=
  (b.start_page, b.end_page)

/-- Sort relation of line 423: sorted(..., key=lambda x: x.id). -/
def idLe (a b : BatchResult) : Prop := a.id ≤ b.id

instance : DecidableRel idLe := fun a b => inferInstanceAs (Decidable (a.id ≤ b.id))

instance : IsTotal BatchResult idLe := ⟨fun a b => Int.le_total a.id b.id⟩

instance : IsTrans BatchResult idLe := ⟨fun _ _ _ hab hbc => Int.le_trans hab hbc⟩

/-- One iteration of the duplicate-filter loop of check_status (lines
414-421).  The Python dict unique_batches is the insertion-ordered list acc;
when the key is already present the stored batch is replaced in place by b
exactly when b.id is larger, otherwise b is appended as a new entry. -/
def insertUnique (acc : List BatchResult) (b : BatchResult) : List BatchResult :=
  if ∃ x ∈ acc, batchKey x = batchKey b then
    acc.map (fun x => if batchKey x = batchKey b ∧ x.id < b.id then b else x)
  else acc ++ [b]

/-- The whole duplicate-filter loop of check_status (lines 414-421):
fold of insertUnique over the reported batches, starting from the empty
dict. -/
def uniqueBatches (l : List BatchResult) : List BatchResult :=
  l.foldl insertUnique []

/-- Batch reconciliation of check_status (lines 411-424): duplicate filter
followed by sorted(unique_batches.values(), key=lambda x: x.id), which is a
stable sort on the batch id. -/
def reconcile (l : List BatchResult) : List BatchResult :=
  List.insertionSort idLe (uniqueBatches l)

/-- Invariant of the duplicate-filter loop: acc is the dict state after the
batches in seen have been processed.  Its keys are distinct, every stored
batch comes from seen, every seen key is stored, and every stored batch has
the largest id among the seen batches sharing its key. -/
def ubInv (seen acc : List BatchResult) : Prop :=
  (acc.map batchKey).Nodup
    ∧ (∀ b ∈ acc, b ∈ seen)
    ∧ (∀ s ∈ seen, ∃ c ∈ acc, batchKey c = batchKey s)
    ∧ (∀ b ∈ acc, ∀ s ∈ seen, batchKey s = batchKey b → s.id ≤ b.id)

lemma ubInv_nil : ubInv [] [] := by
  refine ⟨List.nodup_nil, ?_, ?_, ?_⟩ <;> intros <;> simp_all

lemma ubInv_step {seen acc : List BatchResult} (h : ubInv seen acc) (x : BatchResult) :
    ubInv (seen ++ [x]) (insertUnique acc x) := by
  obtain ⟨h1, h2, h3, h4⟩ := h
  rw [insertUnique]
  by_cases hex : ∃ y ∈ acc, batchKey y = batchKey x
  · rw [if_pos hex]
    have key_pres : ∀ y ∈ acc,
        batchKey (if batchKey y = batchKey x ∧ y.id < x.id then x else y) = batchKey y := by
      intro y _
      by_cases hc : batchKey y = batchKey x ∧ y.id < x.id
      · rw [if_pos hc, hc.1]
      · rw [if_neg hc]
    have hkeys : (acc.map (fun y => if batchKey y = batchKey x ∧ y.id < x.id then x else y)).map
        batchKey = acc.map batchKey := by
      rw [List.map_map]
      exact List.map_congr_left key_pres
    refine ⟨by rw [hkeys]; exact h1, ?_, ?_, ?_⟩
    · intro b hb
      obtain ⟨y, hy, hfy⟩ := List.mem_map.mp hb
      by_cases hc : batchKey y = batchKey x ∧ y.id < x.id
      · rw [if_pos hc] at hfy
        simp [← hfy]
      · rw [if_neg hc] at hfy
        exact List.mem_append_left _ (hfy ▸ h2 y hy)
    · intro s hs
      rcases List.mem_append.mp hs with hs | hs
      · obtain ⟨c, hc, hck⟩ := h3 s hs
        refine ⟨if batchKey c = batchKey x ∧ c.id < x.id then x else c,
          List.mem_map.mpr ⟨c, hc, rfl⟩, ?_⟩
        rw [key_pres c hc, hck]
      · obtain ⟨y, hy, hyk⟩ := hex
        have hs' : s = x := by simpa using hs
        refine ⟨if batchKey y = batchKey x ∧ y.id < x.id then x else y,
          List.mem_map.mpr ⟨y, hy, rfl⟩, ?_⟩
        rw [key_pres y hy, hyk, hs']
    · intro b hb s hs hk
      obtain ⟨y, hy, hfy⟩ := List.mem_map.mp hb
      rcases List.mem_append.mp hs with hsSeen | hsX
      · by_cases hc : batchKey y = batchKey x ∧ y.id < x.id
        · rw [if_pos hc] at hfy
          have hky : batchKey s = batchKey y := by rw [hk, ← hfy, hc.1]
          exact Int.le_trans (h4 y hy s hsSeen hky) (hfy ▸ Int.le_of_lt hc.2)
        · rw [if_neg hc] at hfy
          exact hfy ▸ h4 y hy s hsSeen (by rw [hk, ← hfy])
      · have hsx : s = x := by simpa using hsX
        by_cases hc : batchKey y = batchKey x ∧ y.id < x.id
        · rw [if_pos hc] at hfy
          exact le_of_eq (by rw [hsx, hfy])
        · rw [if_neg hc] at hfy
          have hkk : batchKey y = batchKey x := by rw [hfy, ← hk, hsx]
          have hnlt : ¬ y.id < x.id := fun hlt => hc ⟨hkk, hlt⟩
          have hxy : x.id ≤ y.id := by omega
          rw [hsx, ← hfy]
          exact hxy
  · rw [if_neg hex]
    refine ⟨?_, ?_, ?_, ?_⟩
    · rw [List.map_append]
      rw [List.nodup_append]
      refine ⟨h1, List.nodup_singleton _, ?_⟩
      intro a ha ha'
      have hax : a = batchKey x := by simpa using ha'
      obtain ⟨y, hy, hyk⟩ := List.mem_map.mp ha
      exact hex ⟨y, hy, by rw [hyk, hax]⟩
    · intro b hb
      rcases List.mem_append.mp hb with hb | hb
      · exact List.mem_append_left _ (h2 b hb)
      · exact List.mem_append_right _ hb
    · intro s hs
      rcases List.mem_append.mp hs with hs | hs
      · obtain ⟨c, hc, hck⟩ := h3 s hs
        exact ⟨c, List.mem_append_left _ hc, hck⟩
      · have hs' : s = x := by simpa using hs
        exact ⟨x, List.mem_append_right _ (by simp), by rw [hs']⟩
    · intro b hb s hs hk
      rcases List.mem_append.mp hb with hbAcc | hbX
      · rcases List.mem_append.mp hs with hsSeen | hsX
        · exact h4 b hbAcc s hsSeen hk
        · have hsx : s = x := by simpa using hsX
          exact absurd ⟨b, hbAcc, by rw [← hk, hsx]⟩ hex
      · have hbx : b = x := by simpa using hbX
        rcases List.mem_append.mp hs with hsSeen | hsX
        · obtain ⟨c, hc, hck⟩ := h3 s hsSeen
          exact absurd ⟨c, hc, by rw [hck, hk, hbx]⟩ hex
        · have hsx : s = x := by simpa using hsX
          exact le_of_eq (by rw [hsx, ← hbx])

lemma ubInv_foldl : ∀ (l seen acc : List BatchResult), ubInv seen acc →
    ubInv (seen ++ l) (l.foldl insertUnique acc)
  | [], seen, acc, h => by simpa using h
  | x :: l, seen, acc, h => by
    have h' := ubInv_foldl l (seen ++ [x]) (insertUnique acc x) (ubInv_step h x)
    simpa using h'

lemma ubInv_uniqueBatches (l : List BatchResult) : ubInv l (uniqueBatches l) := by
  have h := ubInv_foldl l [] [] ubInv_nil
  simpa [uniqueBatches] using h

/-- C1: for every list of batches fed to batch reconciliation in
check_status, the returned list has pairwise-distinct (start_page, end_page)
keys, each returned batch is an input batch whose id is largest among the
input batches sharing its key, every key present in the input is represented
in the output, the output is sorted in ascending order of id, and the empty
input yields the empty output. -/
theorem C1_reconcile_dedup_max_sorted (l : List BatchResult) :
    ((reconcile l).map batchKey).Nodup
      ∧ (∀ b ∈ reconcile l, b ∈ l ∧ ∀ c ∈ l, batchKey c = batchKey b → c.id ≤ b.id)
      ∧ (∀ b ∈ l, ∃ c ∈ reconcile l, batchKey c = batchKey b)
      ∧ List.Sorted (· ≤ ·) ((reconcile l).map BatchResult.id)
      ∧ (l = [] → reconcile l = []) := by
  have hperm : List.Perm (reconcile l) (uniqueBatches l) :=
    List.perm_insertionSort idLe (uniqueBatches l)
  obtain ⟨h1, h2, h3, h4⟩ := ubInv_uniqueBatches l
  refine ⟨?_, ?_, ?_, ?_, ?_⟩
  · exact ((hperm.map batchKey).nodup_iff).mpr h1
  · intro b hb
    have hb' : b ∈ uniqueBatches l := hperm.mem_iff.mp hb
    exact ⟨h2 b hb', fun c hc hkey => h4 b hb' c hc hkey⟩
  · intro b hb
    obtain ⟨c, hc, hkeq⟩ := h3 b hb
    exact ⟨c, hperm.mem_iff.mpr hc, hkeq⟩
  · have hs : List.Sorted idLe (reconcile l) := List.sorted_insertionSort idLe (uniqueBatches l)
    exact List.pairwise_map.mpr hs
  · intro hl
    subst hl
    rfl

/-- Concrete instance of C1: for the two-batch job of the spec (ids 7 and 9
sharing pages 6-10, id 1 covering pages 1-5), batch 9 barely survives: it is
a member of the input and dominates the id of batch 7 with the same range. -/
theorem C1_reconcile_witness :
    ((⟨9, "completed", some "u9", some 6, some 10⟩ : BatchResult) ∈
        [(⟨7, "completed", some "u7", some 6, some 10⟩ : BatchResult),
         ⟨9, "completed", some "u9", some 6, some 10⟩,
         ⟨1, "completed", some "u1", some 1, some 5⟩])
      ∧ (7 : Int) ≤ 9 :=
  ⟨((C1_reconcile_dedup_max_sorted
      [⟨7, "completed", some "u7", some 6, some 10⟩,
       ⟨9, "completed", some "u9", some 6, some 10⟩,
       ⟨1, "completed", some "u1", some 1, some 5⟩]).2.1
      ⟨9, "completed", some "u9", some 6, some 10⟩ (by decide)).1,
   ((C1_reconcile_dedup_max_sorted
      [⟨7, "completed", some "u7", some 6, some 10⟩,
       ⟨9, "completed", some "u9", some 6, some 10⟩,
       ⟨1, "completed", some "u1", some 1, some 5⟩]).2.1
      ⟨9, "completed", some "u9", some 6, some 10⟩ (by decide)).2
      ⟨7, "completed", some "u7", some 6, some 10⟩ (by decide) (by decide)⟩

/-- One batch object of the JSON status response.  The fields id and status
are read with indexing in the source (required); start_page, end_page and
download_url are read with dict.get.  For download_url the outer Option is
the presence of the key (tested with the in operator at line 400) and the
inner Option its possibly-null value. -/
structure BatchJson where
  id : Int
  status : String
  start_page : Option Int := none
  end_page : Option Int := none
  download_url : Option (Option String) := none
deriving DecidableEq

/-- One parsed JSON body of a status poll (GET requests/id).  All reads in
the source go through dict.get, so each field is an Option. -/
structure StatusResponse where
  status : Option String := none
  batches : Option (List BatchJson) := none
  failure_message : Option String := none
deriving DecidableEq

/-- Construction of a BatchResult from a response batch (upstage_client.py
lines 357-363). -/
def mkBatchResult (j : BatchJson) : BatchResult :=
  { id := j.id
    status := j.status
    download_url := j.download_url.join
    start_page := j.start_page
    end_page := j.end_page }

/-- Inner loop body of the batch-status refresh (upstage_client.py lines
389-408): every tracked batch whose id equals the updated batch's id gets
the updated status, and gets the updated download_url only when the new
status is completed and the response batch carries the download_url key.
Response batches matching no tracked id are not used. -/
def refreshBatch (u : BatchJson) (result : BatchResult) : BatchResult :=
  if result.id = u.id then
    let result1 : BatchResult := { result with status := u.status }
    if result1.status = "completed" then
      match u.download_url with
      | some v => { result1 with download_url := v }
      | none => result1
    else result1
  else result

/-- Application of one updated batch to every tracked batch (the inner for
loop at lines 390-408 ranges over all tracked results). -/
def applyUpdateOne (u : BatchJson) (tracked : List BatchResult) : List BatchResult :=
  tracked.map (refreshBatch u)

/-- Outer loop of the batch-status refresh (line 389): the updated batches
of one poll response are applied in order. -/
def updateBatches (tracked : List BatchResult) (updates : List BatchJson) : List BatchResult :=
  updates.foldl (fun acc u => applyUpdateOne u acc) tracked

/-- Error outcomes of the modelled waiting portion of check_status.
timeout is the TimeoutError of lines 336 and 376, missingBatches the
ValueError of line 351, and pollsExhausted marks a run that consumed the
whole supplied response list while still waiting (the real loop would keep
polling). -/
inductive CheckStatusErr where
  | timeout
  | missingBatches
  | pollsExhausted
deriving DecidableEq

/-- Job-level waiting loop of check_status (lines 333-348, wait=True): while
the job status reads submitted, compare the clock against start + max_wait
(TimeoutError when exceeded, line 335-338), then fetch the next response.
Each consumed pair holds the clock reading of the elapsed-time check of that
iteration and the response fetched after the sleep. -/
def waitSubmitted (start max_wait : Int) :
    StatusResponse → List (Int × StatusResponse) →
    Except CheckStatusErr (StatusResponse × List (Int × StatusResponse))
  | r, [] =>
    if r.status = some "submitted" then .error .pollsExhausted
    else .ok (r, [])
  | r, (t, r') :: rest =>
    if r.status = some "submitted" then
      if t - start > max_wait then .error .timeout
      else waitSubmitted start max_wait r' rest
    else .ok (r, (t, r') :: rest)

/-- Batch-level waiting loop of check_status (lines 371-408, wait=True):
while some tracked batch is not completed, compare the clock against
start + max_wait (TimeoutError when exceeded, lines 374-378), then refresh
the tracked batches from the next response's batches (default empty list,
line 388). -/
def waitBatches (start max_wait : Int) :
    List BatchResult → List (Int × StatusResponse) → Except CheckStatusErr (List BatchResult)
  | tracked, [] =>
    if ∀ b ∈ tracked, b.status = "completed" then .ok tracked
    else .error .pollsExhausted
  | tracked, (t, r') :: rest =>
    if ∀ b ∈ tracked, b.status = "completed" then .ok tracked
    else if t - start > max_wait then .error .timeout
    else waitBatches start max_wait (updateBatches tracked (r'.batches.getD [])) rest

/-- Waiting and reconciliation portion of check_status (lines 313-424,
wait=True) given the first parsed response and the stream of later poll
responses: wait for the job to leave submitted, fail when the response
carries no batches key, build the tracked batches, wait for all of them to
complete, then deduplicate and sort.  Both loops measure elapsed time from
the same start value (start_time is set once at line 313). -/
def check_status_wait (start max_wait : Int) (r0 : StatusResponse)
    (events : List (Int × StatusResponse)) : Except CheckStatusErr (List BatchResult) :=
  match waitSubmitted start max_wait r0 events with
  | .error e => .error e
  | .ok (r, rest) =>
    match r.batches with
    | none => .error .missingBatches
    | some bs =>
      match waitBatches start max_wait (bs.map mkBatchResult) rest with
      | .error e => .error e
      | .ok final => .ok (reconcile final)

/-- Error outcomes of DocumentParser.wait_for_completion (parser.py lines
144-183): TimeoutError at line 167, the failure Exception at lines 177-180
carrying the message built from failure_message, and the marker for an
exhausted response list. -/
inductive WaitCompletionErr where
  | timeout
  | parseFailed (msg : String)
  | pollsExhausted
deriving DecidableEq

/-- DocumentParser.wait_for_completion (parser.py lines 144-183): an
unconditional loop that first compares the clock against start + timeout,
then fetches the status, returns it when completed, raises with the
service failure message (default message when absent) when failed, and
otherwise sleeps and repeats. -/
def wait_for_completion (start timeout : Int) :
    List (Int × StatusResponse) → Except WaitCompletionErr StatusResponse
  | [] => .error .pollsExhausted
  | (t, s) :: rest =>
    if t - start > timeout then .error .timeout
    else if s.status = some "completed" then .ok s
    else if s.status = some "failed" then
      .error (.parseFailed (s.failure_message.getD "알 수 없는 오류"))
    else wait_for_completion start timeout rest

lemma refreshBatch_id (u : BatchJson) (r : BatchResult) : (refreshBatch u r).id = r.id := by
  rw [refreshBatch]
  by_cases h : r.id = u.id
  · rw [if_pos h]
    by_cases h2 : u.status = "completed"
    · simp only [h2, if_pos]
      cases u.download_url <;> rfl
    · simp only [if_neg h2]
  · rw [if_neg h]

lemma refreshBatch_start_page (u : BatchJson) (r : BatchResult) :
    (refreshBatch u r).start_page = r.start_page := by
  rw [refreshBatch]
  by_cases h : r.id = u.id
  · rw [if_pos h]
    by_cases h2 : u.status = "completed"
    · simp only [h2, if_pos]
      cases u.download_url <;> rfl
    · simp only [if_neg h2]
  · rw [if_neg h]

lemma refreshBatch_end_page (u : BatchJson) (r : BatchResult) :
    (refreshBatch u r).end_page = r.end_page := by
  rw [refreshBatch]
  by_cases h : r.id = u.id
  · rw [if_pos h]
    by_cases h2 : u.status = "completed"
    · simp only [h2, if_pos]
      cases u.download_url <;> rfl
    · simp only [if_neg h2]
  · rw [if_neg h]

lemma refreshBatch_noMatch (u : BatchJson) (r : BatchResult) (h : r.id ≠ u.id) :
    refreshBatch u r = r := by
  rw [refreshBatch, if_neg h]

lemma refreshBatch_match (u : BatchJson) (r : BatchResult) (h : r.id = u.id) :
    refreshBatch u r =
      { r with
          status := u.status
          download_url :=
            if u.status = "completed" then u.download_url.getD r.download_url
            else r.download_url } := by
  rw [refreshBatch, if_pos h]
  by_cases h2 : u.status = "completed"
  · simp only [h2, if_pos]
    cases u.download_url <;> rfl
  · simp only [if_neg h2]

lemma updateBatches_cons (tracked : List BatchResult) (u : BatchJson) (us : List BatchJson) :
    updateBatches tracked (u :: us) = updateBatches (applyUpdateOne u tracked) us := rfl

lemma updateBatches_map_id (tracked : List BatchResult) :
    ∀ us : List BatchJson, (updateBatches tracked us).map BatchResult.id
      = tracked.map BatchResult.id := by
  intro us
  induction us generalizing tracked with
  | nil => rfl
  | cons u us ih =>
    rw [updateBatches_cons, ih]
    rw [applyUpdateOne, List.map_map]
    exact List.map_congr_left (fun r _ => refreshBatch_id u r)

lemma updateBatches_map_start_page (tracked : List BatchResult) :
    ∀ us : List BatchJson, (updateBatches tracked us).map BatchResult.start_page
      = tracked.map BatchResult.start_page := by
  intro us
  induction us generalizing tracked with
  | nil => rfl
  | cons u us ih =>
    rw [updateBatches_cons, ih]
    rw [applyUpdateOne, List.map_map]
    exact List.map_congr_left (fun r _ => refreshBatch_start_page u r)

lemma updateBatches_map_end_page (tracked : List BatchResult) :
    ∀ us : List BatchJson, (updateBatches tracked us).map BatchResult.end_page
      = tracked.map BatchResult.end_page := by
  intro us
  induction us generalizing tracked with
  | nil => rfl
  | cons u us ih =>
    rw [updateBatches_cons, ih]
    rw [applyUpdateOne, List.map_map]
    exact List.map_congr_left (fun r _ => refreshBatch_end_page u r)

lemma updateBatches_untouched (r : BatchResult) :
    ∀ (us : List BatchJson) (tracked : List BatchResult), r ∈ tracked →
      (∀ u ∈ us, u.id ≠ r.id) → r ∈ updateBatches tracked us
  | [], tracked, hr, _ => hr
  | u :: us, tracked, hr, hu => by
    rw [updateBatches_cons]
    refine updateBatches_untouched r us (applyUpdateOne u tracked) ?_
      (fun v hv => hu v (List.mem_cons_of_mem _ hv))
    have hne : r.id ≠ u.id := fun he => hu u (List.mem_cons_self _ _) he.symm
    have hrr : refreshBatch u r = r := refreshBatch_noMatch u r hne
    exact List.mem_map.mpr ⟨r, hr, hrr⟩

/-- C4 counterexample: the refresh loop of check_status neither appends a
response batch with an unseen id (id 2 below is dropped) nor replaces the
download_url of a matching batch whose updated status is not completed (the
url stays "old" although the response carries "new").  The claim, taken at
these inputs, is therefore false. -/
theorem C4_counterexample :
    (updateBatches
        [{ id := 1, status := "processing", download_url := some "old",
           start_page := some 1, end_page := some 5 }]
        [{ id := 2, status := "completed", start_page := some 6, end_page := some 10,
           download_url := some (some "new") }]).map BatchResult.id = [1]
      ∧ (updateBatches
          [{ id := 1, status := "processing", download_url := some "old",
             start_page := some 1, end_page := some 5 }]
          [{ id := 1, status := "processing", start_page := some 1, end_page := some 5,
             download_url := some (some "new") }]).map BatchResult.download_url
        = [some "old"] := by
  constructor <;> rfl

/-- C4 (amended): during the batch-completion polling loop of check_status,
a poll response never changes the set of tracked ids or the page fields (in
particular batches with unseen ids are ignored, not appended); a tracked
batch matching no response id is kept unchanged; and a tracked batch whose
id matches a response batch gets that batch's status, and gets its
download_url only when the new status is completed and the response carries
the download_url key, keeping the old value otherwise. -/
theorem C4_poll_refresh (tracked : List BatchResult) (us : List BatchJson) :
    ((updateBatches tracked us).map BatchResult.id = tracked.map BatchResult.id
        ∧ (updateBatches tracked us).map BatchResult.start_page
          = tracked.map BatchResult.start_page
        ∧ (updateBatches tracked us).map BatchResult.end_page
          = tracked.map BatchResult.end_page)
      ∧ (∀ r ∈ tracked, (∀ u ∈ us, u.id ≠ r.id) → r ∈ updateBatches tracked us)
      ∧ (∀ u : BatchJson, ∀ r ∈ tracked, r.id = u.id →
          ({ r with
              status := u.status
              download_url :=
                if u.status = "completed" then u.download_url.getD r.download_url
                else r.download_url } : BatchResult) ∈ updateBatches tracked [u]) := by
  refine ⟨⟨updateBatches_map_id tracked us, updateBatches_map_start_page tracked us,
    updateBatches_map_end_page tracked us⟩, ?_, ?_⟩
  · intro r hr hu
    exact updateBatches_untouched r us tracked hr hu
  · intro u r hr hid
    have hmem : refreshBatch u r ∈ updateBatches tracked [u] :=
      List.mem_map.mpr ⟨r, hr, rfl⟩
    rw [refreshBatch_match u r hid] at hmem
    exact hmem

/-- Concrete instance of C4 (amended): a matching response batch with
status completed and a download_url key rewrites the tracked batch's status
and url. -/
theorem C4_poll_refresh_witness :
    ({ id := 1, status := "completed", download_url := some "new",
       start_page := some 1, end_page := some 5 } : BatchResult) ∈
      updateBatches
        [{ id := 1, status := "processing", download_url := some "old",
           start_page := some 1, end_page := some 5 }]
        [{ id := 1, status := "completed", start_page := some 1, end_page := some 5,
           download_url := some (some "new") }] := by
  have h := (C4_poll_refresh
      [{ id := 1, status := "processing", download_url := some "old",
         start_page := some 1, end_page := some 5 }]
      [{ id := 1, status := "completed", start_page := some 1, end_page := some 5,
         download_url := some (some "new") }]).2.2
      { id := 1, status := "completed", start_page := some 1, end_page := some 5,
        download_url := some (some "new") }
      { id := 1, status := "processing", download_url := some "old",
        start_page := some 1, end_page := some 5 }
      (by decide) (by decide)
  simpa using h

lemma waitSubmitted_exhausted_bound (start max_wait : Int) :
    ∀ (r : StatusResponse) (events : List (Int × StatusResponse)),
      waitSubmitted start max_wait r events = .error .pollsExhausted →
      ∀ e ∈ events, e.1 - start ≤ max_wait
  | _, [], _, e, he => absurd he (List.not_mem_nil e)
  | r, (t, r') :: rest, h, e, he => by
    rw [waitSubmitted] at h
    by_cases hs : r.status = some "submitted"
    · rw [if_pos hs] at h
      by_cases ht : t - start > max_wait
      · rw [if_pos ht] at h
        simp at h
      · rw [if_neg ht] at h
        rcases List.mem_cons.mp he with he | he
        · rw [he]
          show t - start ≤ max_wait
          omega
        · exact waitSubmitted_exhausted_bound start max_wait r' rest h e he
    · rw [if_neg hs] at h
      simp at h

lemma waitSubmitted_ok_bound (start max_wait : Int) :
    ∀ (r : StatusResponse) (events : List (Int × StatusResponse)) (r' : StatusResponse)
      (rest : List (Int × StatusResponse)),
      waitSubmitted start max_wait r events = .ok (r', rest) →
      ∀ e ∈ events, e ∈ rest ∨ e.1 - start ≤ max_wait
  | _, [], _, _, _, e, he => absurd he (List.not_mem_nil e)
  | r, (t, rr) :: tail, r', rest, h, e, he => by
    rw [waitSubmitted] at h
    by_cases hs : r.status = some "submitted"
    · rw [if_pos hs] at h
      by_cases ht : t - start > max_wait
      · rw [if_pos ht] at h
        simp at h
      · rw [if_neg ht] at h
        rcases List.mem_cons.mp he with he | he
        · right
          rw [he]
          show t - start ≤ max_wait
          omega
        · exact waitSubmitted_ok_bound start max_wait rr tail r' rest h e he
    · rw [if_neg hs] at h
      simp only [Except.ok.injEq, Prod.mk.injEq] at h
      exact Or.inl (h.2 ▸ he)

lemma waitBatches_exhausted_bound (start max_wait : Int) :
    ∀ (tracked : List BatchResult) (events : List (Int × StatusResponse)),
      waitBatches start max_wait tracked events = .error .pollsExhausted →
      ∀ e ∈ events, e.1 - start ≤ max_wait
  | _, [], _, e, he => absurd he (List.not_mem_nil e)
  | tracked, (t, rr) :: tail, h, e, he => by
    rw [waitBatches] at h
    by_cases hall : ∀ b ∈ tracked, b.status = "completed"
    · rw [if_pos hall] at h
      simp at h
    · rw [if_neg hall] at h
      by_cases ht : t - start > max_wait
      · rw [if_pos ht] at h
        simp at h
      · rw [if_neg ht] at h
        rcases List.mem_cons.mp he with he | he
        · rw [he]
          show t - start ≤ max_wait
          omega
        · exact waitBatches_exhausted_bound start max_wait _ tail h e he

lemma check_status_wait_ws_error (start max_wait : Int) (r0 : StatusResponse)
    (events : List (Int × StatusResponse)) (e : CheckStatusErr)
    (hws : waitSubmitted start max_wait r0 events = .error e) :
    check_status_wait start max_wait r0 events = .error e := by
  rw [check_status_wait, hws]

lemma check_status_wait_ws_ok (start max_wait : Int) (r0 : StatusResponse)
    (events : List (Int × StatusResponse)) (r : StatusResponse)
    (rest : List (Int × StatusResponse))
    (hws : waitSubmitted start max_wait r0 events = .ok (r, rest)) :
    check_status_wait start max_wait r0 events
      = match r.batches with
        | none => .error .missingBatches
        | some bs =>
          match waitBatches start max_wait (List.map mkBatchResult bs) rest with
          | .error e => .error e
          | .ok final => .ok (reconcile final) := by
  rw [check_status_wait, hws]

/-- Batch-tracking state reached after a sequence of poll responses has
been applied by the refresh loop: fold of updateBatches over the responses'
batch lists (default empty, line 388), starting from a tracked list. -/
def trackedAfter (tracked : List BatchResult) (events : List (Int × StatusResponse)) :
    List BatchResult :=
  events.foldl (fun acc e => updateBatches acc (e.2.batches.getD [])) tracked

lemma waitSubmitted_timeout_general (start max_wait t : Int) (r' : StatusResponse)
    (post : List (Int × StatusResponse)) (ht : t - start > max_wait) :
    ∀ (pre : List (Int × StatusResponse)) (r : StatusResponse),
      r.status = some "submitted" →
      (∀ e ∈ pre, e.1 - start ≤ max_wait ∧ e.2.status = some "submitted") →
      waitSubmitted start max_wait r (pre ++ (t, r') :: post) = .error .timeout
  | [], r, hr, _ => by
    rw [List.nil_append, waitSubmitted, if_pos hr, if_pos ht]
  | (t0, s0) :: pre, r, hr, hpre => by
    have h0 := hpre (t0, s0) (List.mem_cons_self _ _)
    have h01 : t0 - start ≤ max_wait := h0.1
    have h02 : s0.status = some "submitted" := h0.2
    rw [List.cons_append, waitSubmitted, if_pos hr, if_neg (by omega)]
    exact waitSubmitted_timeout_general start max_wait t r' post ht pre s0 h02
      (fun e he => hpre e (List.mem_cons_of_mem _ he))

lemma waitBatches_timeout_general (start max_wait t : Int) (r' : StatusResponse)
    (post : List (Int × StatusResponse)) (ht : t - start > max_wait) :
    ∀ (pre : List (Int × StatusResponse)) (tracked : List BatchResult),
      (∀ e ∈ pre, e.1 - start ≤ max_wait) →
      (∀ pre1 pre2, pre = pre1 ++ pre2 →
        ¬ ∀ b ∈ trackedAfter tracked pre1, b.status = "completed") →
      waitBatches start max_wait tracked (pre ++ (t, r') :: post) = .error .timeout
  | [], tracked, _, hnot => by
    have hndone : ¬ ∀ b ∈ tracked, b.status = "completed" := by
      have h := hnot [] [] rfl
      simpa [trackedAfter] using h
    rw [List.nil_append, waitBatches, if_neg hndone, if_pos ht]
  | (t0, s0) :: pre, tracked, hpre, hnot => by
    have h0 : t0 - start ≤ max_wait := hpre (t0, s0) (List.mem_cons_self _ _)
    have hndone : ¬ ∀ b ∈ tracked, b.status = "completed" := by
      have h := hnot [] ((t0, s0) :: pre) rfl
      simpa [trackedAfter] using h
    rw [List.cons_append, waitBatches, if_neg hndone, if_neg (by omega)]
    exact waitBatches_timeout_general start max_wait t r' post ht pre
      (updateBatches tracked (s0.batches.getD []))
      (fun e he => hpre e (List.mem_cons_of_mem _ he))
      (fun pre1 pre2 hsplit => by
        have hsplit' : (t0, s0) :: pre = ((t0, s0) :: pre1) ++ pre2 := by
          rw [List.cons_append, hsplit]
        have h := hnot ((t0, s0) :: pre1) pre2 hsplit'
        simpa [trackedAfter, List.foldl_cons] using h)

/-- C3: in the waiting portion of check_status one elapsed-time budget,
measured from the single start_time taken at the start of the call, bounds
both the submitted-phase loop and the all-batches-completed loop; the
budget is not reset between the phases.  First conjunct: whenever some
supplied poll instant exceeds start + max_wait, the call cannot run out of
the supplied polls (every non-waiting outcome is reached at or before that
instant).  Second conjunct, the submitted phase in full generality: if the
polls before some overdue instant are all within the budget and the job
reads submitted throughout (initially and at every such poll), the call
fails with Timeout at that instant.  Third conjunct, the batch phase in
full generality: if the submitted phase ends normally with batch
information present, the remaining polls before some overdue instant are
within the budget, and the tracked batches are not all completed at any
point up to that instant (under the poll-driven refreshes), the call fails
with Timeout there — even though the overdue instant may lie arbitrarily
deep in the poll sequence and the submitted phase already consumed part of
the same budget. -/
theorem C3_shared_timeout_budget (start max_wait : Int) (r0 : StatusResponse)
    (events : List (Int × StatusResponse)) :
    ((∃ e ∈ events, e.1 - start > max_wait) →
        check_status_wait start max_wait r0 events ≠ .error .pollsExhausted)
      ∧ (∀ (pre post : List (Int × StatusResponse)) (t : Int) (r' : StatusResponse),
          events = pre ++ (t, r') :: post →
          (∀ e ∈ pre, e.1 - start ≤ max_wait ∧ e.2.status = some "submitted") →
          t - start > max_wait →
          r0.status = some "submitted" →
          check_status_wait start max_wait r0 events = .error .timeout)
      ∧ (∀ (r1 : StatusResponse) (rest : List (Int × StatusResponse)),
          waitSubmitted start max_wait r0 events = .ok (r1, rest) →
          ∀ bs : List BatchJson, r1.batches = some bs →
          ∀ (pre post : List (Int × StatusResponse)) (t : Int) (r' : StatusResponse),
            rest = pre ++ (t, r') :: post →
            (∀ e ∈ pre, e.1 - start ≤ max_wait) →
            t - start > max_wait →
            (∀ pre1 pre2, pre = pre1 ++ pre2 →
              ¬ ∀ b ∈ trackedAfter (bs.map mkBatchResult) pre1, b.status = "completed") →
            check_status_wait start max_wait r0 events = .error .timeout) := by
  refine ⟨?_, ?_, ?_⟩
  · intro hex
    obtain ⟨⟨te, re⟩, hmem, ht⟩ := hex
    have ht' : te - start > max_wait := ht
    cases hws : waitSubmitted start max_wait r0 events with
    | error e =>
      have hval := check_status_wait_ws_error start max_wait r0 events e hws
      cases e with
      | timeout => rw [hval]; simp
      | missingBatches => rw [hval]; simp
      | pollsExhausted =>
        intro _
        have hb := waitSubmitted_exhausted_bound start max_wait r0 events hws (te, re) hmem
        have hb' : te - start ≤ max_wait := hb
        omega
    | ok pr =>
      obtain ⟨r, rest⟩ := pr
      have hred := check_status_wait_ws_ok start max_wait r0 events r rest hws
      cases hbs : r.batches with
      | none =>
        rw [hbs] at hred
        have hval : check_status_wait start max_wait r0 events = .error .missingBatches := hred
        rw [hval]
        simp
      | some bs =>
        rw [hbs] at hred
        have hred2 : check_status_wait start max_wait r0 events
            = match waitBatches start max_wait (List.map mkBatchResult bs) rest with
              | .error e => .error e
              | .ok final => .ok (reconcile final) := hred
        cases hwb : waitBatches start max_wait (List.map mkBatchResult bs) rest with
        | error e2 =>
          rw [hwb] at hred2
          have hval : check_status_wait start max_wait r0 events = .error e2 := hred2
          cases e2 with
          | timeout => rw [hval]; simp
          | missingBatches => rw [hval]; simp
          | pollsExhausted =>
            intro _
            rcases waitSubmitted_ok_bound start max_wait r0 events r rest hws (te, re) hmem
              with hin | hle
            · have hb := waitBatches_exhausted_bound start max_wait _ rest hwb (te, re) hin
              have hb' : te - start ≤ max_wait := hb
              omega
            · have hle' : te - start ≤ max_wait := hle
              omega
        | ok final =>
          rw [hwb] at hred2
          have hval : check_status_wait start max_wait r0 events
              = .ok (reconcile final) := hred2
          rw [hval]
          simp
  · intro pre post t r' hsplit hpre ht hsub
    have hws : waitSubmitted start max_wait r0 events = .error .timeout := by
      rw [hsplit]
      exact waitSubmitted_timeout_general start max_wait t r' post ht pre r0 hsub hpre
    exact check_status_wait_ws_error start max_wait r0 events _ hws
  · intro r1 rest hws bs hbs pre post t r' hsplit hpre ht hnot
    have hwb : waitBatches start max_wait (List.map mkBatchResult bs) rest
        = .error .timeout := by
      rw [hsplit]
      exact waitBatches_timeout_general start max_wait t r' post ht pre
        (bs.map mkBatchResult) hpre hnot
    have hred := check_status_wait_ws_ok start max_wait r0 events r1 rest hws
    rw [hbs] at hred
    have hred2 : check_status_wait start max_wait r0 events
        = match waitBatches start max_wait (List.map mkBatchResult bs) rest with
          | .error e => .error e
          | .ok final => .ok (reconcile final) := hred
    rw [hwb] at hred2
    exact hred2

/-- Concrete instance of C3, exercising the ordinary case: one in-budget
poll that still reads submitted, then a check past the budget, makes
check_status fail with Timeout. -/
theorem C3_shared_timeout_budget_witness :
    check_status_wait 0 300 { status := some "submitted" }
      [(100, { status := some "submitted" }), (301, { status := some "submitted" })]
      = .error .timeout :=
  (C3_shared_timeout_budget 0 300 { status := some "submitted" }
      [(100, { status := some "submitted" }), (301, { status := some "submitted" })]).2.1
    [(100, { status := some "submitted" })] [] 301 { status := some "submitted" }
    rfl (by decide) (by decide) rfl

/-- C8 counterexample: the lifecycle client's check_status ignores a
job-level failed status.  With the job reported failed (carrying
failure_message "boom") and its single batch also failed, the waited call
surfaces Timeout once the budget elapses, not an error carrying the
service-provided message, so the claim fails at this input for the cited
check_status code. -/
theorem C8_counterexample :
    check_status_wait 0 300
      { status := some "failed",
        batches := some [{ id := 1, status := "failed" }],
        failure_message := some "boom" }
      [(1000, { status := some "failed",
                batches := some [{ id := 1, status := "failed" }],
                failure_message := some "boom" })]
      = .error .timeout := by
  rfl

/-- C8 (amended): DocumentParser.wait_for_completion in parser.py is the
client that surfaces a job-level failed status: as long as the budget is
not exceeded and earlier polls report neither completed nor failed, the
first poll reporting failed makes the call fail with the parse-failure
error carrying the service-provided failure_message (or the default
message when absent), rather than a timeout or success.  The caching
lifecycle client's check_status has no such branch (see the recorded
counterexample). -/
theorem C8_failed_surfaced_with_message (start timeout t : Int) (s : StatusResponse)
    (post : List (Int × StatusResponse))
    (ht : t - start ≤ timeout) (hs : s.status = some "failed") :
    ∀ pre : List (Int × StatusResponse),
      (∀ e ∈ pre, e.1 - start ≤ timeout
          ∧ e.2.status ≠ some "completed" ∧ e.2.status ≠ some "failed") →
      wait_for_completion start timeout (pre ++ (t, s) :: post)
        = .error (.parseFailed (s.failure_message.getD "알 수 없는 오류"))
  | [], _ => by
    rw [List.nil_append, wait_for_completion, if_neg (by omega),
      if_neg (by rw [hs]; simp), if_pos hs]
  | (t0, s0) :: pre, hpre => by
    have h0 := hpre (t0, s0) (List.mem_cons_self _ _)
    have h01 : t0 - start ≤ timeout := h0.1
    have h02 : s0.status ≠ some "completed" := h0.2.1
    have h03 : s0.status ≠ some "failed" := h0.2.2
    rw [List.cons_append, wait_for_completion, if_neg (by omega), if_neg h02, if_neg h03]
    exact C8_failed_surfaced_with_message start timeout t s post ht hs pre
      (fun e he => hpre e (List.mem_cons_of_mem _ he))

/-- Concrete instance of C8 (amended): a failed poll after one processing
poll within the budget yields the parse-failure error with the service
message. -/
theorem C8_failed_surfaced_witness :
    wait_for_completion 0 600
      [(5, { status := some "processing" }),
       (10, { status := some "failed", failure_message := some "boom" })]
      = .error (.parseFailed "boom") :=
  C8_failed_surfaced_with_message 0 600 10
    { status := some "failed", failure_message := some "boom" } []
    (by decide) rfl [(5, { status := some "processing" })] (by decide)

/-- Association-list lookup, modelling Python dict membership tests and
reads for string-keyed dicts (keys are unique in every dict the client
builds). -/
def lookupA {α : Type} : List (String × α) → String → Option α
  | [], _ => none
  | e :: rest, k => if e.1 = k then some e.2 else lookupA rest k

/-- Association-list update, modelling Python dict assignment d[k] = v:
the stored entry is replaced in place when the key is present, otherwise
the new entry is appended (dicts preserve insertion order). -/
def insertA {α : Type} (c : List (String × α)) (k : String) (v : α) : List (String × α) :=
  if ∃ e ∈ c, e.1 = k then c.map (fun e => if e.1 = k then (k, v) else e)
  else c ++ [(k, v)]

/-- Association-list deletion, modelling del d[k]. -/
def eraseA {α : Type} (c : List (String × α)) (k : String) : List (String × α) :=
  c.filter (fun e => e.1 ≠ k)

lemma lookupA_map_replace {α : Type} (k : String) (v : α) :
    ∀ c : List (String × α), (∃ e ∈ c, e.1 = k) →
      lookupA (c.map (fun e => if e.1 = k then (k, v) else e)) k = some v
  | [], hex => absurd hex (by simp)
  | e :: rest, hex => by
    by_cases h : e.1 = k
    · rw [List.map_cons, if_pos h, lookupA, if_pos rfl]
    · rw [List.map_cons, if_neg h, lookupA, if_neg h]
      apply lookupA_map_replace k v rest
      obtain ⟨e', he', hk⟩ := hex
      rcases List.mem_cons.mp he' with he' | he'
      · exact absurd (he' ▸ hk) h
      · exact ⟨e', he', hk⟩

lemma lookupA_append_single {α : Type} (k : String) (v : α) :
    ∀ c : List (String × α), (¬ ∃ e ∈ c, e.1 = k) →
      lookupA (c ++ [(k, v)]) k = some v
  | [], _ => by rw [List.nil_append, lookupA, if_pos rfl]
  | e :: rest, hex => by
    have h : e.1 ≠ k := fun hk => hex ⟨e, List.mem_cons_self _ _, hk⟩
    rw [List.cons_append, lookupA, if_neg h]
    exact lookupA_append_single k v rest
      (fun ⟨e', he', hk⟩ => hex ⟨e', List.mem_cons_of_mem _ he', hk⟩)

lemma lookupA_insertA_self {α : Type} (c : List (String × α)) (k : String) (v : α) :
    lookupA (insertA c k v) k = some v := by
  rw [insertA]
  by_cases hex : ∃ e ∈ c, e.1 = k
  · rw [if_pos hex]
    exact lookupA_map_replace k v c hex
  · rw [if_neg hex]
    exact lookupA_append_single k v c hex

/-- ProcessCache of __init__ (lines 108-110): cache key to (format-to-path
map, timestamp). -/
abbrev ProcessCache := List (String × (List (String × String) × Int))

/-- Observable outcome of one process_document call: the returned
format-to-path map, the cache state after the call, and whether the
request-to-export pipeline stages (lines 711-726) were executed. -/
structure ProcessOutcome where
  result : List (String × String)
  cache : ProcessCache
  pipelineRan : Bool
deriving DecidableEq

/-- Pipeline branch of process_document: the stages run, and the freshly
produced map is stored under the key with the current clock reading (line
732) before being returned. -/
def runFresh (cache : ProcessCache) (cache_key : String) (now : Int)
    (pipeline : List (String × String)) : ProcessOutcome :=
  { result := pipeline, cache := insertA cache cache_key (pipeline, now), pipelineRan := true }

/-- Cache logic of process_document (upstage_client.py lines 691-733).
Arguments: the cache, the computed cache key, the clock reading, the
os.path.exists predicate, the TTL (3600 in __init__) and the format-to-path
map that the pipeline would produce on this call.  On a present entry the
code first tests existence of every cached path, evicting on any missing
file regardless of age (lines 698-703); an existing entry within the strict
age bound now - timestamp < ttl is returned unchanged (lines 704-706); an
expired entry is evicted (lines 707-709); every evicted or absent entry
leads to the pipeline (line 711 onward). -/
def process_document (cache : ProcessCache) (cache_key : String) (now : Int)
    (path_exists : String → Bool) (ttl : Int)
    (pipeline : List (String × String)) : ProcessOutcome :=
  match lookupA cache cache_key with
  | some (cached_result, timestamp) =>
    if ∀ p ∈ cached_result, path_exists p.2 = true then
      if now - timestamp < ttl then
        { result := cached_result, cache := cache, pipelineRan := false }
      else runFresh (eraseA cache cache_key) cache_key now pipeline
    else runFresh (eraseA cache cache_key) cache_key now pipeline
  | none => runFresh cache cache_key now pipeline

lemma process_document_miss {cache : ProcessCache} {cache_key : String} {now : Int}
    {path_exists : String → Bool} {ttl : Int} {pipeline : List (String × String)}
    (h : lookupA cache cache_key = none) :
    process_document cache cache_key now path_exists ttl pipeline
      = runFresh cache cache_key now pipeline := by
  rw [process_document, h]

lemma process_document_hit {cache : ProcessCache} {cache_key : String} {now : Int}
    {path_exists : String → Bool} {ttl : Int} {pipeline : List (String × String)}
    {r : List (String × String)} {ts : Int}
    (h : lookupA cache cache_key = some (r, ts))
    (hall : ∀ p ∈ r, path_exists p.2 = true) (hlt : now - ts < ttl) :
    process_document cache cache_key now path_exists ttl pipeline
      = { result := r, cache := cache, pipelineRan := false } := by
  rw [process_document, h]
  show (if ∀ p ∈ r, path_exists p.2 = true then
          if now - ts < ttl then
            ({ result := r, cache := cache, pipelineRan := false } : ProcessOutcome)
          else runFresh (eraseA cache cache_key) cache_key now pipeline
        else runFresh (eraseA cache cache_key) cache_key now pipeline) = _
  rw [if_pos hall, if_pos hlt]

lemma process_document_evict_missing_file {cache : ProcessCache} {cache_key : String}
    {now : Int} {path_exists : String → Bool} {ttl : Int} {pipeline : List (String × String)}
    {r : List (String × String)} {ts : Int}
    (h : lookupA cache cache_key = some (r, ts))
    (hnall : ¬ ∀ p ∈ r, path_exists p.2 = true) :
    process_document cache cache_key now path_exists ttl pipeline
      = runFresh (eraseA cache cache_key) cache_key now pipeline := by
  rw [process_document, h]
  show (if ∀ p ∈ r, path_exists p.2 = true then
          if now - ts < ttl then
            ({ result := r, cache := cache, pipelineRan := false } : ProcessOutcome)
          else runFresh (eraseA cache cache_key) cache_key now pipeline
        else runFresh (eraseA cache cache_key) cache_key now pipeline) = _
  rw [if_neg hnall]

lemma process_document_evict_expired {cache : ProcessCache} {cache_key : String}
    {now : Int} {path_exists : String → Bool} {ttl : Int} {pipeline : List (String × String)}
    {r : List (String × String)} {ts : Int}
    (h : lookupA cache cache_key = some (r, ts))
    (hall : ∀ p ∈ r, path_exists p.2 = true) (hge : ¬ now - ts < ttl) :
    process_document cache cache_key now path_exists ttl pipeline
      = runFresh (eraseA cache cache_key) cache_key now pipeline := by
  rw [process_document, h]
  show (if ∀ p ∈ r, path_exists p.2 = true then
          if now - ts < ttl then
            ({ result := r, cache := cache, pipelineRan := false } : ProcessOutcome)
          else runFresh (eraseA cache cache_key) cache_key now pipeline
        else runFresh (eraseA cache cache_key) cache_key now pipeline) = _
  rw [if_pos hall, if_neg hge]

/-- C2: for every process_document call whose key is cached, (1) when every
cached path exists and the entry's age is strictly within the TTL the cached
map is returned unchanged with the cache untouched and no pipeline stage
executed; (2) when some cached path no longer exists the entry is evicted
and the full pipeline runs, its fresh result stored under the key, so no
stale content is returned; (3) when the age exceeds the TTL (with all paths
present) the entry is likewise evicted and the pipeline runs; and (4) on a
miss the pipeline runs and the fresh map is stored, timestamped, under the
key before being returned. -/
theorem C2_process_cache_policy (cache : ProcessCache) (cache_key : String) (now ttl : Int)
    (path_exists : String → Bool) (pipeline : List (String × String)) :
    (∀ r ts, lookupA cache cache_key = some (r, ts) →
        ((∀ p ∈ r, path_exists p.2 = true) → now - ts < ttl →
            process_document cache cache_key now path_exists ttl pipeline
              = { result := r, cache := cache, pipelineRan := false })
          ∧ ((∃ p ∈ r, path_exists p.2 = false) →
            process_document cache cache_key now path_exists ttl pipeline
              = { result := pipeline,
                  cache := insertA (eraseA cache cache_key) cache_key (pipeline, now),
                  pipelineRan := true })
          ∧ ((∀ p ∈ r, path_exists p.2 = true) → now - ts > ttl →
            process_document cache cache_key now path_exists ttl pipeline
              = { result := pipeline,
                  cache := insertA (eraseA cache cache_key) cache_key (pipeline, now),
                  pipelineRan := true }))
      ∧ (lookupA cache cache_key = none →
          process_document cache cache_key now path_exists ttl pipeline
              = { result := pipeline, cache := insertA cache cache_key (pipeline, now),
                  pipelineRan := true }
            ∧ lookupA (insertA cache cache_key (pipeline, now)) cache_key
              = some (pipeline, now)) := by
  constructor
  · intro r ts hlk
    refine ⟨?_, ?_, ?_⟩
    · intro hall hlt
      exact process_document_hit hlk hall hlt
    · intro hex
      have hnall : ¬ ∀ p ∈ r, path_exists p.2 = true := by
        obtain ⟨p, hp, hf⟩ := hex
        intro hall
        rw [hall p hp] at hf
        exact Bool.noConfusion hf
      exact process_document_evict_missing_file hlk hnall
    · intro hall hgt
      exact process_document_evict_expired hlk hall (by omega)
  · intro hlk
    exact ⟨process_document_miss hlk, lookupA_insertA_self cache cache_key (pipeline, now)⟩

/-- Concrete instance of C2: a fresh cached entry with its path on disk is
returned unchanged without the pipeline. -/
theorem C2_process_cache_policy_witness :
    process_document [("k", ([("markdown", "p")], 0))] "k" 10 (fun _ => true) 3600
        [("x", "y")]
      = { result := [("markdown", "p")], cache := [("k", ([("markdown", "p")], 0))],
          pipelineRan := false } :=
  (((C2_process_cache_policy [("k", ([("markdown", "p")], 0))] "k" 10 3600
      (fun _ => true) [("x", "y")]).1 [("markdown", "p")] 0 (by decide)).1
    (by decide) (by decide))

/-- C9: a process_document invocation that runs the pipeline and obtains an
empty exported-file map still stores that empty map, timestamped, under the
key, and a later call with the same key within the TTL returns the empty
map as a cache hit, without running the pipeline — the existence check over
an empty path map passes vacuously. -/
theorem C9_empty_export_map_cache_hit (cache : ProcessCache) (cache_key : String)
    (now now2 ttl : Int) (pe pe2 : String → Bool) (pipeline2 : List (String × String))
    (hrun : (process_document cache cache_key now pe ttl []).pipelineRan = true)
    (httl : now2 - now < ttl) :
    lookupA (process_document cache cache_key now pe ttl []).cache cache_key
        = some ([], now)
      ∧ process_document (process_document cache cache_key now pe ttl []).cache cache_key
          now2 pe2 ttl pipeline2
        = { result := [],
            cache := (process_document cache cache_key now pe ttl []).cache,
            pipelineRan := false } := by
  have hlk : lookupA (process_document cache cache_key now pe ttl []).cache cache_key
      = some ([], now) := by
    cases hl : lookupA cache cache_key with
    | none =>
      rw [process_document_miss hl]
      exact lookupA_insertA_self cache cache_key ([], now)
    | some pr =>
      obtain ⟨r, ts⟩ := pr
      by_cases hall : ∀ p ∈ r, pe p.2 = true
      · by_cases hlt : now - ts < ttl
        · exfalso
          rw [process_document_hit hl hall hlt] at hrun
          exact Bool.noConfusion hrun
        · rw [process_document_evict_expired hl hall hlt]
          exact lookupA_insertA_self _ cache_key ([], now)
      · rw [process_document_evict_missing_file hl hall]
        exact lookupA_insertA_self _ cache_key ([], now)
  refine ⟨hlk, ?_⟩
  exact process_document_hit hlk (fun p hp => absurd hp (List.not_mem_nil p)) httl

/-- Concrete instance of C9: after a run that produced no exported files,
the empty map is a cache hit ten time units later. -/
theorem C9_empty_export_map_witness :
    lookupA (process_document [] "k" 0 (fun _ => false) 3600 []).cache "k" = some ([], 0)
      ∧ process_document (process_document [] "k" 0 (fun _ => false) 3600 []).cache "k" 10
          (fun _ => false) 3600 [("a", "b")]
        = { result := [],
            cache := (process_document [] "k" 0 (fun _ => false) 3600 []).cache,
            pipelineRan := false } :=
  C9_empty_export_map_cache_hit [] "k" 0 10 3600 (fun _ => false) (fun _ => false)
    [("a", "b")] (by decide) (by decide)

/-- One downloaded batch payload as seen by merge_results: none models a
payload without the content key (the test at line 574), some m the content
dict keyed by output format. -/
abbrev Payload := Option (List (String × String))

/-- Accumulation of the format keys of one content dict into the running
set of discovered formats, keeping first-seen order. -/
def addKeys (acc : List String) : List String → List String
  | [] => acc
  | k :: ks => if k ∈ acc then addKeys acc ks else addKeys (acc ++ [k]) ks

/-- result_formats of merge_results (lines 564-567): the union of the
format keys present across all payloads.  The Python set is enumerated here
in first-seen order; every property claimed of the merged dict is
insensitive to the enumeration order. -/
def contentKeys (downloaded : List Payload) : List String :=
  downloaded.foldl
    (fun acc d =>
      match d with
      | some m => addKeys acc (m.map Prod.fst)
      | none => acc)
    []

/-- Per-format contents collected by the payload loop of lines 572-582: the
content string of every payload that has the content key and this format,
in payload order. -/
def contentsFor (fmt : String) (downloaded : List Payload) : List String :=
  downloaded.filterMap (fun d => Option.bind d (fun m => lookupA m fmt))

/-- Per-format value of the merged dict (line 588): a dict holding the
joined content string under the content key. -/
structure MergedValue where
  content : String
deriving DecidableEq

/-- merge_results of upstage_client.py (lines 542-594) applied to provided
downloaded data: each discovered format is mapped to the blank-line join of
its per-payload content strings; the final loop skips a format whose
collected list is empty (lines 585-593, unreachable for discovered formats
but kept for fidelity). -/
def merge_results (downloaded : List Payload) : List (String × MergedValue) :=
  (contentKeys downloaded).filterMap (fun fmt =>
    if (contentsFor fmt downloaded).isEmpty then none
    else some (fmt, { content := String.intercalate "\n\n" (contentsFor fmt downloaded) }))

lemma addKeys_mem (k : String) :
    ∀ (ks acc : List String), k ∈ addKeys acc ks ↔ k ∈ acc ∨ k ∈ ks
  | [], acc => by simp [addKeys]
  | k0 :: ks, acc => by
    rw [addKeys]
    by_cases h : k0 ∈ acc
    · rw [if_pos h, addKeys_mem k ks acc]
      constructor
      · intro hc
        rcases hc with hc | hc
        · exact Or.inl hc
        · exact Or.inr (List.mem_cons_of_mem _ hc)
      · intro hc
        rcases hc with hc | hc
        · exact Or.inl hc
        · rcases List.mem_cons.mp hc with hc | hc
          · exact Or.inl (hc ▸ h)
          · exact Or.inr hc
    · rw [if_neg h, addKeys_mem k ks (acc ++ [k0])]
      simp only [List.mem_append, List.mem_singleton, List.mem_cons]
      tauto

lemma addKeys_nodup :
    ∀ (ks acc : List String), acc.Nodup → (addKeys acc ks).Nodup
  | [], _, h => h
  | k0 :: ks, acc, h => by
    rw [addKeys]
    by_cases hk : k0 ∈ acc
    · rw [if_pos hk]
      exact addKeys_nodup ks acc h
    · rw [if_neg hk]
      refine addKeys_nodup ks (acc ++ [k0]) ?_
      rw [List.nodup_append]
      refine ⟨h, List.nodup_singleton _, ?_⟩
      intro a ha ha'
      have : a = k0 := by simpa using ha'
      exact hk (this ▸ ha)

lemma contentKeys_aux_mem (fmt : String) :
    ∀ (l : List Payload) (acc : List String),
      fmt ∈ l.foldl
          (fun acc d =>
            match d with
            | some m => addKeys acc (m.map Prod.fst)
            | none => acc)
          acc
        ↔ fmt ∈ acc ∨ ∃ d ∈ l, ∃ m, d = some m ∧ fmt ∈ m.map Prod.fst
  | [], acc => by simp
  | d0 :: l, acc => by
    rw [List.foldl_cons, contentKeys_aux_mem fmt l]
    cases d0 with
    | none =>
      simp only [List.mem_cons]
      constructor
      · intro hc
        rcases hc with hc | ⟨d, hd, m, hm, hk⟩
        · exact Or.inl hc
        · exact Or.inr ⟨d, Or.inr hd, m, hm, hk⟩
      · intro hc
        rcases hc with hc | ⟨d, hd, m, hm, hk⟩
        · exact Or.inl hc
        · rcases hd with hd | hd
          · rw [hd] at hm
            exact absurd hm (by simp)
          · exact Or.inr ⟨d, hd, m, hm, hk⟩
    | some m0 =>
      rw [addKeys_mem]
      simp only [List.mem_cons]
      constructor
      · intro hc
        rcases hc with (hc | hc) | ⟨d, hd, m, hm, hk⟩
        · exact Or.inl hc
        · exact Or.inr ⟨some m0, Or.inl rfl, m0, rfl, hc⟩
        · exact Or.inr ⟨d, Or.inr hd, m, hm, hk⟩
      · intro hc
        rcases hc with hc | ⟨d, hd, m, hm, hk⟩
        · exact Or.inl (Or.inl hc)
        · rcases hd with hd | hd
          · rw [hd] at hm
            have hm' : m0 = m := by simpa using hm
            exact Or.inl (Or.inr (hm' ▸ hk))
          · exact Or.inr ⟨d, hd, m, hm, hk⟩

lemma contentKeys_nodup (l : List Payload) : (contentKeys l).Nodup := by
  have haux : ∀ (l : List Payload) (acc : List String), acc.Nodup →
      (l.foldl
        (fun acc d =>
          match d with
          | some m => addKeys acc (m.map Prod.fst)
          | none => acc)
        acc).Nodup := by
    intro l
    induction l with
    | nil => intro acc h; exact h
    | cons d0 l ih =>
      intro acc h
      rw [List.foldl_cons]
      cases d0 with
      | none => exact ih acc h
      | some m0 => exact ih _ (addKeys_nodup (m0.map Prod.fst) acc h)
  exact haux l [] List.nodup_nil

lemma lookupA_none_iff {α : Type} (k : String) :
    ∀ m : List (String × α), lookupA m k = none ↔ k ∉ m.map Prod.fst
  | [] => by simp [lookupA]
  | e :: rest => by
    rw [lookupA]
    by_cases h : e.1 = k
    · rw [if_pos h]
      simp [h]
    · rw [if_neg h]
      rw [lookupA_none_iff k rest]
      simp only [List.map_cons, List.mem_cons]
      constructor
      · intro hn hc
        rcases hc with hc | hc
        · exact h hc.symm
        · exact hn hc
      · intro hn hc
        exact hn (Or.inr hc)

lemma contentKeys_mem_iff (fmt : String) (l : List Payload) :
    fmt ∈ contentKeys l ↔ ¬ (contentsFor fmt l).isEmpty := by
  rw [contentKeys, contentKeys_aux_mem]
  rw [List.isEmpty_iff, contentsFor, List.filterMap_eq_nil_iff]
  simp only [List.mem_nil_iff, false_or]
  constructor
  · intro hmem hall
    obtain ⟨d, hd, m, hm, hk⟩ := hmem
    have hlook := hall d hd
    rw [hm] at hlook
    have hnone : lookupA m fmt = none := by simpa using hlook
    exact (lookupA_none_iff fmt m).mp hnone hk
  · intro hne
    push_neg at hne
    obtain ⟨d, hd, hval⟩ := hne
    cases d with
    | none => exact absurd rfl hval
    | some m =>
      refine ⟨some m, hd, m, rfl, ?_⟩
      have hlook : lookupA m fmt ≠ none := fun hn => hval hn
      by_contra hk
      exact hlook ((lookupA_none_iff fmt m).mpr hk)

lemma lookupA_filterMap_keys (g : String → Option (String × MergedValue))
    (hg : ∀ k p, g k = some p → p.1 = k) :
    ∀ ks : List String, ks.Nodup → ∀ fmt,
      lookupA (ks.filterMap g) fmt
        = if fmt ∈ ks then (g fmt).map Prod.snd else none
  | [], _, fmt => by simp [lookupA]
  | k :: ks, hnd, fmt => by
    have hknd : ks.Nodup := (List.nodup_cons.mp hnd).2
    have hknot : k ∉ ks := (List.nodup_cons.mp hnd).1
    rw [List.filterMap_cons]
    cases hk : g k with
    | none =>
      rw [lookupA_filterMap_keys g hg ks hknd fmt]
      by_cases hf : fmt = k
      · rw [hf]
        rw [if_neg hknot, if_pos (List.mem_cons_self _ _), hk]
        rfl
      · by_cases hm : fmt ∈ ks
        · rw [if_pos hm, if_pos (List.mem_cons_of_mem _ hm)]
        · rw [if_neg hm, if_neg (by simp [hf, hm])]
    | some p =>
      have hp1 : p.1 = k := hg k p hk
      rw [lookupA]
      by_cases hf : fmt = k
      · rw [if_pos (by rw [hp1, hf]), hf, if_pos (List.mem_cons_self _ _), hk]
        rfl
      · rw [if_neg (by rw [hp1]; exact fun h => hf h.symm)]
        rw [lookupA_filterMap_keys g hg ks hknd fmt]
        by_cases hm : fmt ∈ ks
        · rw [if_pos hm, if_pos (List.mem_cons_of_mem _ hm)]
        · rw [if_neg hm, if_neg (by simp [hf, hm])]

/-- C7: for every non-empty list of downloaded payloads, merge_results maps
each format to the blank-line join of that format's content strings taken,
in payload order, from exactly the payloads that carry it (formats carried
by no payload are absent, so a format present in only some payloads is
built from those alone with no padding), and when no payload carries a
content key at all the result is the empty map, a normal outcome. -/
theorem C7_merge_by_format (l : List Payload) (hne : l ≠ []) :
    (∀ fmt : String,
        lookupA (merge_results l) fmt
          = if (contentsFor fmt l).isEmpty then none
            else some { content := String.intercalate "\n\n" (contentsFor fmt l) })
      ∧ ((∀ d ∈ l, d = none) → merge_results l = []) := by
  constructor
  · intro fmt
    have hg : ∀ k p,
        (if (contentsFor k l).isEmpty then none
         else some (k, ({ content := String.intercalate "\n\n" (contentsFor k l) }
            : MergedValue))) = some p → p.1 = k := by
      intro k p hp
      by_cases hk : (contentsFor k l).isEmpty
      · rw [if_pos hk] at hp
        exact Option.noConfusion hp
      · rw [if_neg hk] at hp
        have hpv := Option.some.inj hp
        rw [← hpv]
    rw [merge_results, lookupA_filterMap_keys _ hg (contentKeys l) (contentKeys_nodup l) fmt]
    by_cases hmem : fmt ∈ contentKeys l
    · rw [if_pos hmem]
      have hfne : ¬ (contentsFor fmt l).isEmpty := (contentKeys_mem_iff fmt l).mp hmem
      rw [if_neg hfne, if_neg hfne]
      rfl
    · rw [if_neg hmem]
      have hemp : (contentsFor fmt l).isEmpty := by
        by_contra hc
        exact hmem ((contentKeys_mem_iff fmt l).mpr hc)
      rw [if_pos hemp]
  · intro hnone
    have haux : ∀ (l2 : List Payload) (acc : List String), (∀ d ∈ l2, d = none) →
        l2.foldl
            (fun acc d =>
              match d with
              | some m => addKeys acc (m.map Prod.fst)
              | none => acc)
            acc
          = acc := by
      intro l2
      induction l2 with
      | nil => intro acc _; rfl
      | cons d0 l2 ih =>
        intro acc hn
        rw [List.foldl_cons]
        have hd0 : d0 = none := hn d0 (List.mem_cons_self _ _)
        rw [hd0]
        exact ih acc (fun d hd => hn d (List.mem_cons_of_mem _ hd))
    have hkeys : contentKeys l = [] := haux l [] hnone
    rw [merge_results, hkeys]
    rfl

/-- Concrete instance of C7: merging two payloads carrying markdown A and B
yields the markdown entry A, blank line, B. -/
theorem C7_merge_by_format_witness :
    lookupA (merge_results [some [("md", "A")], some [("md", "B")]]) "md"
      = some { content := "A\n\nB" } := by
  have h := (C7_merge_by_format [some [("md", "A")], some [("md", "B")]] (by decide)).1 "md"
  rw [h]
  decide

/-- Body shared by the three public converters (upstage_client.py lines
735-814).  The whole body runs in a try block: process_document may raise
(modelled by the error case of process_outcome), the requested format may
be absent from the returned map, and the read of the exported file may
raise (error case of read_file); every raised exception is caught by the
except clause and turned into None, and a missing format key returns None;
otherwise the file content string is returned. -/
def convert_with_format (fmt : String)
    (process_outcome : Except Unit (List (String × String)))
    (read_file : String → Except Unit String) : Option String :=
  match process_outcome with
  | .error _ => none
  | .ok exported_files =>
    match lookupA exported_files fmt with
    | some path =>
      match read_file path with
      | .error _ => none
      | .ok content => some content
    | none => none

/-- convert_to_markdown (lines 735-762): the converter body for the
markdown format. -/
def convert_to_markdown : Except Unit (List (String × String)) →
    (String → Except Unit String) → Option String :=
  convert_with_format "markdown"

/-- convert_to_html (lines 764-788): the converter body for the html
format. -/
def convert_to_html : Except Unit (List (String × String)) →
    (String → Except Unit String) → Option String :=
  convert_with_format "html"

/-- convert_to_text (lines 790-814): the converter body for the text
format. -/
def convert_to_text : Except Unit (List (String × String)) →
    (String → Except Unit String) → Option String :=
  convert_with_format "text"

lemma convert_with_format_cases (fmt : String)
    (po : Except Unit (List (String × String))) (rf : String → Except Unit String) :
    (∀ e, po = .error e → convert_with_format fmt po rf = none)
      ∧ (∀ files, po = .ok files →
          (lookupA files fmt = none → convert_with_format fmt po rf = none)
            ∧ (∀ p e, lookupA files fmt = some p → rf p = .error e →
                convert_with_format fmt po rf = none)
            ∧ (∀ p c, lookupA files fmt = some p → rf p = .ok c →
                convert_with_format fmt po rf = some c)) := by
  constructor
  · intro e he
    rw [convert_with_format.eq_def, he]
  · intro files hf
    refine ⟨?_, ?_, ?_⟩
    · intro hlk
      rw [convert_with_format.eq_def, hf]
      show (match lookupA files fmt with
            | some path =>
              match rf path with
              | .error _ => none
              | .ok content => some content
            | none => none) = none
      rw [hlk]
    · intro p e hlk hrf
      rw [convert_with_format.eq_def, hf]
      show (match lookupA files fmt with
            | some path =>
              match rf path with
              | .error _ => none
              | .ok content => some content
            | none => none) = none
      rw [hlk]
      show (match rf p with
            | .error _ => none
            | .ok content => some content) = none
      rw [hrf]
    · intro p c hlk hrf
      rw [convert_with_format.eq_def, hf]
      show (match lookupA files fmt with
            | some path =>
              match rf path with
              | .error _ => none
              | .ok content => some content
            | none => none) = some c
      rw [hlk]
      show (match rf p with
            | .error _ => none
            | .ok content => some content) = some c
      rw [hrf]

/-- C10: none of convert_to_markdown, convert_to_html and convert_to_text
propagates an exception: whenever the underlying pipeline raises, or the
requested format is absent from the exported map, or the result-file read
raises, each returns None; and when all succeed each returns the content
string read from the exported file of its format. -/
theorem C10_converters_never_raise
    (po : Except Unit (List (String × String))) (rf : String → Except Unit String) :
    (∀ e, po = .error e →
        convert_to_markdown po rf = none
          ∧ convert_to_html po rf = none ∧ convert_to_text po rf = none)
      ∧ (∀ files, po = .ok files →
          ∀ fmt ∈ ["markdown", "html", "text"],
            (lookupA files fmt = none → convert_with_format fmt po rf = none)
              ∧ (∀ p e, lookupA files fmt = some p → rf p = .error e →
                  convert_with_format fmt po rf = none)
              ∧ (∀ p c, lookupA files fmt = some p → rf p = .ok c →
                  convert_with_format fmt po rf = some c))
      ∧ convert_to_markdown po rf = convert_with_format "markdown" po rf
      ∧ convert_to_html po rf = convert_with_format "html" po rf
      ∧ convert_to_text po rf = convert_with_format "text" po rf := by
  refine ⟨?_, ?_, rfl, rfl, rfl⟩
  · intro e he
    exact ⟨(convert_with_format_cases "markdown" po rf).1 e he,
      (convert_with_format_cases "html" po rf).1 e he,
      (convert_with_format_cases "text" po rf).1 e he⟩
  · intro files hf fmt _
    exact (convert_with_format_cases fmt po rf).2 files hf

/-- Concrete instance of C10: a successful pipeline exporting a markdown
file whose read succeeds yields the file content. -/
theorem C10_converters_witness :
    convert_to_markdown (.ok [("markdown", "out.md")]) (fun _ => .ok "hello")
      = some "hello" :=
  (((C10_converters_never_raise (.ok [("markdown", "out.md")])
      (fun _ => .ok "hello")).2.1 [("markdown", "out.md")] rfl "markdown"
      (by decide)).2.2 "out.md" "hello" (by decide) rfl)

/-- Error outcomes of request: FileNotFoundError of line 204, the HTTPError
raised by response.raise_for_status at line 252, the JSON decode failure of
response.json at line 254, and the ValueError for a body without request_id
at lines 255-258. -/
inductive RequestErr where
  | fileNotFound
  | httpStatusError (code : Int)
  | jsonDecodeError
  | missingRequestId
deriving DecidableEq

instance {ε α : Type} [DecidableEq ε] [DecidableEq α] : DecidableEq (Except ε α) := fun a b =>
  match a, b with
  | .error e1, .error e2 =>
    if h : e1 = e2 then isTrue (by rw [h]) else isFalse (fun hc => h (Except.error.inj hc))
  | .error _, .ok _ => isFalse (fun hc => Except.noConfusion hc)
  | .ok _, .error _ => isFalse (fun hc => Except.noConfusion hc)
  | .ok a1, .ok a2 =>
    if h : a1 = a2 then isTrue (by rw [h]) else isFalse (fun hc => h (Except.ok.inj hc))

/-- Parsed submit response: the HTTP status code and the outcome of reading
request_id from response.json() (error = body not JSON, ok none = JSON body
without a request_id key). -/
structure SubmitResponse where
  status_code : Int
  request_id : Except Unit (Option String)
deriving DecidableEq

/-- request of upstage_client.py (lines 178-278) with wait=False.  A
missing file raises FileNotFoundError (lines 202-204); a request-identity
cache hit returns the cached request_id with the cache unchanged and no
network call (lines 206-217).  Otherwise the supplied response is handled
by lines 237-274: when the status code is not 200 or 202 the code logs an
error and calls response.raise_for_status, which raises only for status
codes in [400, 600), so any other status falls through; the surviving
response is parsed, a missing request_id raises ValueError, and on success
the request_id is stored under the file-content key in the request-identity
cache and returned. -/
def request (file_exists : Bool) (request_id_cache : List (String × String))
    (req_cache_key : String) (resp : SubmitResponse) :
    Except RequestErr (String × List (String × String)) :=
  if file_exists = false then .error .fileNotFound
  else
    match lookupA request_id_cache req_cache_key with
    | some rid => .ok (rid, request_id_cache)
    | none =>
      if (resp.status_code ≠ 200 ∧ resp.status_code ≠ 202)
          ∧ (400 ≤ resp.status_code ∧ resp.status_code < 600) then
        .error (.httpStatusError resp.status_code)
      else
        match resp.request_id with
        | .error _ => .error .jsonDecodeError
        | .ok none => .error .missingRequestId
        | .ok (some rid) => .ok (rid, insertA request_id_cache req_cache_key rid)

/-- C5 evidence: at the failing input — an HTTP 201 response whose JSON
body carries request_id "abc" — the submit path accepts the response,
returns "abc" and stores the cache entry, because raise_for_status raises
only for 4xx and 5xx status codes; the claim requires every status other
than 200/202 to fail with a remote error and store nothing.  The other two
conjuncts record the behaviour the claim gets right: a 4xx status fails
with the HTTP error and a 200 body without request_id fails with the
missing-identifier error, storing nothing in either case. -/
theorem C5_status_201_accepted :
    request true [] "k" { status_code := 201, request_id := .ok (some "abc") }
        = .ok ("abc", [("k", "abc")])
      ∧ request true [] "k" { status_code := 404, request_id := .ok (some "abc") }
        = .error (.httpStatusError 404)
      ∧ request true [] "k" { status_code := 200, request_id := .ok none }
        = .error .missingRequestId := by
  refine ⟨?_, ?_, ?_⟩ <;> rfl

/-- json.dumps applied to a list of strings with default separators, as in
_generate_cache_key lines 144-148: the elements in their given order, each
double-quoted, joined by comma-space inside brackets.  sort_keys=True sorts
dictionary keys only and leaves list elements untouched, which this
definition reflects; it is exact for format names free of JSON escape
characters. -/
def jsonDumpsStringList (l : List String) : String :=
  "[" ++ String.intercalate ", " (l.map (fun s => "\"" ++ s ++ "\"")) ++ "]"

/-- The export-formats serialization of _generate_cache_key (lines
143-148): the JSON dump when a list is provided, the literal text None
otherwise. -/
def export_formats_str (export_formats : Option (List String)) : String :=
  match export_formats with
  | some fs => jsonDumpsStringList fs
  | none => "None"

/-- _generate_cache_key of upstage_client.py (lines 115-153), with the
SHA-256 hex digest over UTF-8 bytes abstracted as the function sha256_hex
and the digest of the file content supplied as file_hash: the key is the
file digest, an underscore separator, and the digest of the export-formats
serialization. -/
def _generate_cache_key (sha256_hex : String → String) (file_hash : String)
    (export_formats : Option (List String)) : String :=
  file_hash ++ "_" ++ sha256_hex (export_formats_str export_formats)

/-- C6 evidence: the two permutations of the requested format list
serialize differently (json.dumps with sort_keys=True does not reorder list
elements), so the format-set component hashed into the cache key differs
between permutations; instantiating the digest with any function that
separates these two serializations — the identity shown here, and SHA-256
for which no collision between them is known — the produced cache keys
differ, contradicting the claimed order-independence. -/
theorem C6_cache_key_order_dependent :
    export_formats_str (some ["html", "markdown"])
          ≠ export_formats_str (some ["markdown", "html"])
      ∧ _generate_cache_key (fun s => s) "f" (some ["html", "markdown"])
        ≠ _generate_cache_key (fun s => s) "f" (some ["markdown", "html"]) := by
  refine ⟨?_, ?_⟩ <;> decide
